import Mathlib

/-!
Verification of the particle swarm optimizer (pso.py, rastrigin.py).

The Python code is embedded shallowly:

* floats are modelled as rationals (`ℚ`); `np.inf` as `⊤` in `WithTop ℚ`;
* the process-wide numpy random generator is modelled as a stream
  `rng : ℕ → ℚ` of raw unit draws (numpy's `uniform(low, high)` returns
  `low + (high - low) * u` with `u` uniform in `[0,1)`); each operation is
  given the portion of the stream it consumes, draws being indexed in the
  order the Python code performs them;
* exceptions are modelled with `Except`; code that cannot raise is total;
* `sorted(..., key=...)` is a stable sort, modelled by the stable
  `List.insertionSort` on the same key;
* plotting calls and the `_iteration` counter (which only feeds plot file
  names) are omitted: they do not touch the algorithmic state.
-/

/-- Exceptions the embedded Python code can actually raise:
an IndexError from `sorted(self._particles, ...)[0]` on an empty list, and
the AssertionError of `rastrigin_2d`'s domain assertions. -/
inductive PsoError where
  | indexError
  | assertionError
deriving DecidableEq, Repr

/-- Models the dataclass `Particle` (pso.py lines 127-133). -/
structure Particle where
  position : ℚ × ℚ
  velocity : ℚ × ℚ
  best_z_value : ℚ
  best_position : ℚ × ℚ
deriving DecidableEq, Repr

instance : Inhabited Particle :=
  ⟨⟨(0, 0), (0, 0), 0, (0, 0)⟩⟩

/-- Models the state of a `ParticleSwarm` object (pso.py lines 15-44).
The plotting flag, tick distance and iteration counter are omitted; the
hyperparameters are the fixed constants below. -/
structure ParticleSwarm where
  n_particles : ℤ
  cost_function : ℚ → ℚ → ℚ
  x_bounds : ℚ × ℚ
  y_bounds : ℚ × ℚ
  global_best_z_value : WithTop ℚ
  global_best_position : WithTop ℚ × WithTop ℚ
  particles : List Particle

/-- Hyperparameter `self._inertia` (pso.py line 38). -/
def inertia : ℚ := 0.8

/-- Hyperparameter `self._cognitive_coefficient` (pso.py line 39). -/
def cognitive_coefficient : ℚ := 2.05

/-- Hyperparameter `self._social_coefficient` (pso.py line 40). -/
def social_coefficient : ℚ := 2.05

/-- Models `ParticleSwarm.__init__` (pso.py lines 17-44): stores the
configuration, sets the global best to infinity and the particle list to
empty.  No validation of any kind is performed by the source.  The
`random_seed` argument only seeds the process-wide generator (here: the
caller picks the stream) and `plot` only controls plotting. -/
def ParticleSwarm.new (n : ℤ) (f : ℚ → ℚ → ℚ) (xb yb : ℚ × ℚ) : ParticleSwarm :=
  { n_particles := n
    cost_function := f
    x_bounds := xb
    y_bounds := yb
    global_best_z_value := ⊤
    global_best_position := (⊤, ⊤)
    particles := [] }

/-- numpy's `random.uniform(low, high)` applied to one raw unit draw `u`:
it returns `low + (high - low) * u`. -/
def uniform (bounds : ℚ × ℚ) (u : ℚ) : ℚ :=
  bounds.1 + (bounds.2 - bounds.1) * u

/-- The particle built by one pass of the loop in `initialize_swarm`
(pso.py lines 48-58): position and velocity are both drawn from
`x_bounds` (`random.uniform(*self.x_bounds, 2)` twice, so particle `i`
consumes raw draws `4*i .. 4*i+3`), and the personal best is seeded with
the initial position and its cost. -/
def initParticle (f : ℚ → ℚ → ℚ) (xb : ℚ × ℚ) (rng : ℕ → ℚ) (i : ℕ) : Particle :=
  let pos : ℚ × ℚ := (uniform xb (rng (4 * i)), uniform xb (rng (4 * i + 1)))
  let vel : ℚ × ℚ := (uniform xb (rng (4 * i + 2)), uniform xb (rng (4 * i + 3)))
  { position := pos
    velocity := vel
    best_z_value := f pos.1 pos.2
    best_position := pos }

/-- Loop body of `initialize_swarm` (pso.py lines 48-61): append the new
particle, then update the global best when the new cost is strictly
smaller. -/
def initStep (rng : ℕ → ℚ) (acc : ParticleSwarm) (i : ℕ) : ParticleSwarm :=
  let p := initParticle acc.cost_function acc.x_bounds rng i
  let z := p.best_z_value
  let acc1 := { acc with particles := acc.particles ++ [p] }
  if (z : WithTop ℚ) < acc1.global_best_z_value then
    { acc1 with
        global_best_z_value := (z : WithTop ℚ)
        global_best_position := ((p.position.1 : WithTop ℚ), (p.position.2 : WithTop ℚ)) }
  else acc1

/-- Models `ParticleSwarm.initialize_swarm` (pso.py lines 46-65, the
plotting call omitted): `for _ in range(self.n_particles)` run the loop
body; `range` of a non-positive count is empty. -/
def ParticleSwarm.init_swarm (s : ParticleSwarm) (rng : ℕ → ℚ) : ParticleSwarm :=
  (List.range s.n_particles.toNat).foldl (initStep rng) s

/-- The clamping of pso.py lines 89-92: first `max` with the lower bound,
then `min` with the upper bound. -/
def clamp (bounds : ℚ × ℚ) (x : ℚ) : ℚ :=
  min (max x bounds.1) bounds.2

/-- The value of the read `self.global_best_position[_dimension]` as a
rational pair.  Along the program lifecycle this read only happens when
the particle loop runs, and then both components are finite; the default
`0` stands in for the never-taken infinite case. -/
def gbPos (s : ParticleSwarm) : ℚ × ℚ :=
  (s.global_best_position.1.untop' 0, s.global_best_position.2.untop' 0)

/-- Per-particle body of `step_all_particles` (pso.py lines 74-103):
for each of the two dimensions draw `r_cognitive, r_social`, update the
velocity, move, clamp to that dimension's bounds; then evaluate the cost
at the new position and update the personal best when strictly smaller.
Raw draw order: `rng 0, rng 1` for dimension 0, `rng 2, rng 3` for
dimension 1. -/
def stepParticle (f : ℚ → ℚ → ℚ) (xb yb : ℚ × ℚ) (gb : ℚ × ℚ) (rng : ℕ → ℚ)
    (p : Particle) : Particle :=
  let v0 := inertia * p.velocity.1
    + cognitive_coefficient * rng 0 * (p.best_position.1 - p.position.1)
    + social_coefficient * rng 1 * (gb.1 - p.position.1)
  let x0 := clamp xb (p.position.1 + v0)
  let v1 := inertia * p.velocity.2
    + cognitive_coefficient * rng 2 * (p.best_position.2 - p.position.2)
    + social_coefficient * rng 3 * (gb.2 - p.position.2)
  let x1 := clamp yb (p.position.2 + v1)
  let z := f x0 x1
  if z < p.best_z_value then
    { position := (x0, x1), velocity := (v0, v1), best_z_value := z,
      best_position := (x0, x1) }
  else
    { position := (x0, x1), velocity := (v0, v1), best_z_value := p.best_z_value,
      best_position := p.best_position }

/-- One pass of the `for particle in self._particles` loop, updating the
particle at index `i` in place.  The swarm-level data — cost function,
bounds and in particular `self.global_best_position` — is read from the
current state `acc`, exactly as the Python attribute reads do. -/
def updateParticleAt (rng : ℕ → ℚ) (acc : ParticleSwarm) (i : ℕ) : ParticleSwarm :=
  let p := acc.particles.getD i default
  let p' := stepParticle acc.cost_function acc.x_bounds acc.y_bounds (gbPos acc)
    (fun k => rng (4 * i + k)) p
  { acc with particles := acc.particles.set i p' }

/-- The full particle sweep of `step_all_particles` (pso.py lines 73-103). -/
def sweepLoop (s : ParticleSwarm) (rng : ℕ → ℚ) : ParticleSwarm :=
  (List.range s.particles.length).foldl (updateParticleAt rng) s

/-- The sort key of pso.py line 106: compare particles by personal best. -/
def zLE (a b : Particle) : Prop :=
  a.best_z_value ≤ b.best_z_value

instance : DecidableRel zLE :=
  fun a b => inferInstanceAs (Decidable (a.best_z_value ≤ b.best_z_value))

instance : IsTotal Particle zLE :=
  ⟨fun a b => le_total a.best_z_value b.best_z_value⟩

instance : IsTrans Particle zLE :=
  ⟨fun _ _ _ h1 h2 => le_trans h1 h2⟩

/-- The global-best update of `step_all_particles` (pso.py lines 105-109):
`sorted(self._particles, key=lambda x: x.best_z_value)[0]` — a stable sort
by personal best, whose first element raises IndexError on an empty
population — then update the global best when strictly smaller. -/
def commitGlobalBest (s : ParticleSwarm) : Except PsoError ParticleSwarm :=
  match (s.particles.insertionSort zLE).head? with
  | none => .error .indexError
  | some best =>
    .ok <|
      if (best.best_z_value : WithTop ℚ) < s.global_best_z_value then
        { s with
            global_best_z_value := (best.best_z_value : WithTop ℚ)
            global_best_position :=
              ((best.best_position.1 : WithTop ℚ), (best.best_position.2 : WithTop ℚ)) }
      else s

/-- Models `ParticleSwarm.step_all_particles` (pso.py lines 67-115,
plotting and the `_iteration` counter omitted): the particle sweep,
then the global-best update. -/
def ParticleSwarm.step_all_particles (s : ParticleSwarm) (rng : ℕ → ℚ) :
    Except PsoError ParticleSwarm :=
  commitGlobalBest (sweepLoop s rng)

/-- Advance the raw-draw stream past `k` consumed draws. -/
def rngDrop (rng : ℕ → ℚ) (k : ℕ) : ℕ → ℚ :=
  fun n => rng (n + k)

/-- The `for _ in range(n_iterations)` loop of `ParticleSwarm.search`
(pso.py lines 118-119): `n` successive calls to `step_all_particles`,
each consuming 4 raw draws per particle from the shared stream. -/
def searchSteps : ℕ → ParticleSwarm → (ℕ → ℚ) → Except PsoError ParticleSwarm
  | 0, s, _ => .ok s
  | n + 1, s, rng => do
    let s' ← s.step_all_particles rng
    searchSteps n s' (rngDrop rng (4 * s.particles.length))

/-- Models `ParticleSwarm.search` (pso.py lines 117-124): run the steps,
then return `(self.global_best_z_value, self.global_best_position)`. -/
def ParticleSwarm.search (s : ParticleSwarm) (rng : ℕ → ℚ) (n_iterations : ℕ) :
    Except PsoError (WithTop ℚ × (WithTop ℚ × WithTop ℚ)) := do
  let s' ← searchSteps n_iterations s rng
  return (s'.global_best_z_value, s'.global_best_position)

/-- Modelled from the spec: one sweep in the two-phase form the spec
demands — every particle's update uses the global best position as of the
start of the sweep, and the global-best fields are written at most once,
after all per-particle updates are done. -/
def step_two_phase (s : ParticleSwarm) (rng : ℕ → ℚ) : Except PsoError ParticleSwarm :=
  let gb0 := gbPos s
  let ps := (List.range s.particles.length).map (fun i =>
    stepParticle s.cost_function s.x_bounds s.y_bounds gb0 (fun k => rng (4 * i + k))
      (s.particles.getD i default))
  commitGlobalBest { s with particles := ps }

/-- The minimum personal best over the population (`⊤` when empty). -/
def minPersonalBest (s : ParticleSwarm) : WithTop ℚ :=
  (s.particles.map Particle.best_z_value).minimum

/-- The trajectory of swarm states along a sequence of
`step_all_particles` calls, one raw-draw stream per call, including the
starting state. -/
def runStates : ParticleSwarm → List (ℕ → ℚ) → Except PsoError (List ParticleSwarm)
  | s, [] => .ok [s]
  | s, r :: rs => do
    let s' ← s.step_all_particles r
    let rest ← runStates s' rs
    return s :: rest

/-- The particle at index `i` (a dummy particle out of range). -/
def nthParticle (s : ParticleSwarm) (i : ℕ) : Particle :=
  s.particles.getD i default

/-- Every cost the swarm ever evaluated along a trajectory: in each state
every particle's current position has just been evaluated (the initial
positions by `initialize_swarm`, later ones by the sweep). -/
def allEvalCosts (states : List ParticleSwarm) : List ℚ :=
  states.flatMap (fun t =>
    t.particles.map (fun p => t.cost_function p.position.1 p.position.2))

/-- The state after a successful `step_all_particles`, the unchanged
state otherwise; used to exhibit concrete runs. -/
def afterStep (s : ParticleSwarm) (rng : ℕ → ℚ) : ParticleSwarm :=
  match s.step_all_particles rng with
  | .ok s' => s'
  | .error _ => s

/-- Models `rastrigin_2d` (rastrigin.py lines 14-46) at the default
`a = 10` being a parameter: assert both inputs lie in `[-5.12, 5.12]`
(AssertionError otherwise) and return
`a*2 + ((x^2 - a*cos(2*pi*x)) + (y^2 - a*cos(2*pi*y)))`.  The inputs are
the swarm's rational positions; the value is real because of the cosine. -/
noncomputable def rastrigin_2d (x y : ℚ) (a : ℚ) : Except PsoError ℝ :=
  if (-5.12 ≤ x ∧ x ≤ 5.12) ∧ (-5.12 ≤ y ∧ y ≤ 5.12) then
    .ok ((a : ℝ) * 2 +
      (((x : ℝ) ^ 2 - (a : ℝ) * Real.cos (2 * Real.pi * (x : ℝ)))
        + ((y : ℝ) ^ 2 - (a : ℝ) * Real.cos (2 * Real.pi * (y : ℝ)))))
  else .error .assertionError

/-! ### Basic facts about the pieces -/

lemma clamp_mem (b : ℚ × ℚ) (hb : b.1 ≤ b.2) (x : ℚ) :
    b.1 ≤ clamp b x ∧ clamp b x ≤ b.2 := by
  unfold clamp
  exact ⟨le_min (le_max_right x b.1) hb, min_le_right _ _⟩

lemma stepParticle_position (f : ℚ → ℚ → ℚ) (xb yb : ℚ × ℚ) (gb : ℚ × ℚ)
    (rng : ℕ → ℚ) (p : Particle) :
    ∃ v0 v1, (stepParticle f xb yb gb rng p).position
      = (clamp xb (p.position.1 + v0), clamp yb (p.position.2 + v1)) := by
  simp only [stepParticle]
  split <;> exact ⟨_, _, rfl⟩

lemma stepParticle_best_z (f : ℚ → ℚ → ℚ) (xb yb : ℚ × ℚ) (gb : ℚ × ℚ)
    (rng : ℕ → ℚ) (p : Particle) :
    (stepParticle f xb yb gb rng p).best_z_value
      = min p.best_z_value
          (f (stepParticle f xb yb gb rng p).position.1
             (stepParticle f xb yb gb rng p).position.2) := by
  simp only [stepParticle]
  split
  case isTrue h => exact (min_eq_right h.le).symm
  case isFalse h => exact (min_eq_left (le_of_not_lt h)).symm

lemma stepParticle_bz_le (f : ℚ → ℚ → ℚ) (xb yb : ℚ × ℚ) (gb : ℚ × ℚ)
    (rng : ℕ → ℚ) (p : Particle) :
    (stepParticle f xb yb gb rng p).best_z_value ≤ p.best_z_value := by
  rw [stepParticle_best_z]
  exact min_le_left _ _

lemma stepParticle_best_sound (f : ℚ → ℚ → ℚ) (xb yb : ℚ × ℚ) (gb : ℚ × ℚ)
    (rng : ℕ → ℚ) (p : Particle)
    (hp : p.best_z_value = f p.best_position.1 p.best_position.2) :
    (stepParticle f xb yb gb rng p).best_z_value
      = f (stepParticle f xb yb gb rng p).best_position.1
          (stepParticle f xb yb gb rng p).best_position.2 := by
  simp only [stepParticle]
  split
  case isTrue h => rfl
  case isFalse h => exact hp

/-! ### Characterizing `initialize_swarm` -/

lemma initStep_particles (rng : ℕ → ℚ) (acc : ParticleSwarm) (i : ℕ) :
    (initStep rng acc i).particles
      = acc.particles ++ [initParticle acc.cost_function acc.x_bounds rng i] := by
  simp only [initStep]
  split <;> rfl

lemma initStep_fields (rng : ℕ → ℚ) (acc : ParticleSwarm) (i : ℕ) :
    (initStep rng acc i).cost_function = acc.cost_function
    ∧ (initStep rng acc i).x_bounds = acc.x_bounds
    ∧ (initStep rng acc i).y_bounds = acc.y_bounds
    ∧ (initStep rng acc i).n_particles = acc.n_particles := by
  simp only [initStep]
  split <;> exact ⟨rfl, rfl, rfl, rfl⟩

lemma foldl_initStep (rng : ℕ → ℚ) (l : List ℕ) :
    ∀ acc : ParticleSwarm,
      (l.foldl (initStep rng) acc).particles
        = acc.particles ++ l.map (initParticle acc.cost_function acc.x_bounds rng)
      ∧ (l.foldl (initStep rng) acc).cost_function = acc.cost_function
      ∧ (l.foldl (initStep rng) acc).x_bounds = acc.x_bounds
      ∧ (l.foldl (initStep rng) acc).y_bounds = acc.y_bounds
      ∧ (l.foldl (initStep rng) acc).n_particles = acc.n_particles := by
  induction l with
  | nil => intro acc; simp
  | cons i l ih =>
    intro acc
    obtain ⟨hp, hf, hx, hy, hn⟩ := ih (initStep rng acc i)
    obtain ⟨gf, gx, gy, gn⟩ := initStep_fields rng acc i
    refine ⟨?_, ?_, ?_, ?_, ?_⟩
    · rw [List.foldl_cons, hp, gf, gx, initStep_particles, List.map_cons,
        List.append_assoc, List.singleton_append]
    · rw [List.foldl_cons, hf, gf]
    · rw [List.foldl_cons, hx, gx]
    · rw [List.foldl_cons, hy, gy]
    · rw [List.foldl_cons, hn, gn]

lemma init_swarm_particles (s : ParticleSwarm) (rng : ℕ → ℚ) :
    (s.init_swarm rng).particles
      = s.particles ++ (List.range s.n_particles.toNat).map
          (initParticle s.cost_function s.x_bounds rng) := by
  exact (foldl_initStep rng _ s).1

lemma init_swarm_fields (s : ParticleSwarm) (rng : ℕ → ℚ) :
    (s.init_swarm rng).cost_function = s.cost_function
    ∧ (s.init_swarm rng).x_bounds = s.x_bounds
    ∧ (s.init_swarm rng).y_bounds = s.y_bounds
    ∧ (s.init_swarm rng).n_particles = s.n_particles := by
  exact (foldl_initStep rng _ s).2

/-! ### Characterizing the particle sweep -/

lemma foldl_updateParticleAt (rng : ℕ → ℚ) (l : List ℕ) :
    ∀ s : ParticleSwarm,
      l.foldl (updateParticleAt rng) s
        = { s with particles := l.foldl (fun ps i =>
              ps.set i (stepParticle s.cost_function s.x_bounds s.y_bounds (gbPos s)
                (fun k => rng (4 * i + k)) (ps.getD i default))) s.particles } := by
  induction l with
  | nil => intro s; rfl
  | cons i l ih =>
    intro s
    rw [List.foldl_cons, ih (updateParticleAt rng s i)]
    rfl

lemma foldl_set_range_eq_map (g : ℕ → Particle → Particle) :
    ∀ (n : ℕ) (l : List Particle), n ≤ l.length →
      (List.range n).foldl (fun ps i => ps.set i (g i (ps.getD i default))) l
        = ((List.range n).map (fun i => g i (l.getD i default))) ++ l.drop n := by
  intro n
  induction n with
  | zero => intro l _; simp
  | succ n ih =>
    intro l h
    have hn : n < l.length := h
    have hA : ((List.range n).map (fun i => g i (l.getD i default))).length = n := by
      simp
    have hdrop : l.drop n = l[n] :: l.drop (n + 1) := List.drop_eq_getElem_cons hn
    rw [List.range_succ, List.foldl_append, List.map_append,
      ih l (Nat.le_of_succ_le h), List.foldl_cons, List.foldl_nil]
    have hget :
        (((List.range n).map (fun i => g i (l.getD i default))) ++ l.drop n).getD n default
          = l.getD n default := by
      rw [List.getD_append_right _ _ _ _ hA.le, hA, Nat.sub_self, hdrop,
        List.getD_cons_zero, List.getD_eq_getElem _ _ hn]
    rw [hget, List.set_append, if_neg (by omega), hA, Nat.sub_self, hdrop,
      List.set_cons_zero]
    simp

lemma sweepLoop_eq (s : ParticleSwarm) (rng : ℕ → ℚ) :
    sweepLoop s rng
      = { s with particles := (List.range s.particles.length).map (fun i =>
            stepParticle s.cost_function s.x_bounds s.y_bounds (gbPos s)
              (fun k => rng (4 * i + k)) (s.particles.getD i default)) } := by
  unfold sweepLoop
  rw [foldl_updateParticleAt, foldl_set_range_eq_map _ s.particles.length s.particles le_rfl]
  simp

lemma sweepLoop_particles (s : ParticleSwarm) (rng : ℕ → ℚ) :
    (sweepLoop s rng).particles
      = (List.range s.particles.length).map (fun i =>
          stepParticle s.cost_function s.x_bounds s.y_bounds (gbPos s)
            (fun k => rng (4 * i + k)) (s.particles.getD i default)) := by
  rw [sweepLoop_eq]

lemma sweepLoop_fields (s : ParticleSwarm) (rng : ℕ → ℚ) :
    (sweepLoop s rng).cost_function = s.cost_function
    ∧ (sweepLoop s rng).x_bounds = s.x_bounds
    ∧ (sweepLoop s rng).y_bounds = s.y_bounds
    ∧ (sweepLoop s rng).n_particles = s.n_particles
    ∧ (sweepLoop s rng).global_best_z_value = s.global_best_z_value
    ∧ (sweepLoop s rng).global_best_position = s.global_best_position := by
  rw [sweepLoop_eq]
  exact ⟨rfl, rfl, rfl, rfl, rfl, rfl⟩

lemma sweepLoop_length (s : ParticleSwarm) (rng : ℕ → ℚ) :
    (sweepLoop s rng).particles.length = s.particles.length := by
  rw [sweepLoop_particles]
  simp

/-! ### The head of the sorted particle list -/

lemma insertionSort_head_min (l : List Particle) (h : l ≠ []) :
    ∃ b, (l.insertionSort zLE).head? = some b ∧ b ∈ l
      ∧ ∀ p ∈ l, b.best_z_value ≤ p.best_z_value := by
  have hperm := List.perm_insertionSort zLE l
  have hsorted := List.sorted_insertionSort zLE l
  cases hs : l.insertionSort zLE with
  | nil =>
    exfalso
    rw [hs] at hperm
    exact h hperm.symm.eq_nil
  | cons b t =>
    refine ⟨b, rfl, ?_, ?_⟩
    · have : b ∈ l.insertionSort zLE := by rw [hs]; exact List.mem_cons_self b t
      exact hperm.subset this
    · intro p hp
      have hp' : p ∈ b :: t := by
        rw [← hs]
        exact hperm.symm.subset hp
      rcases List.mem_cons.mp hp' with rfl | hpt
      · exact le_refl _
      · rw [hs] at hsorted
        exact List.rel_of_pairwise_cons hsorted hpt

/-! ### The global-best update -/

lemma commitGlobalBest_nil (s : ParticleSwarm) (h : s.particles = []) :
    commitGlobalBest s = .error .indexError := by
  unfold commitGlobalBest
  rw [h]
  rfl

lemma commitGlobalBest_spec (s : ParticleSwarm) (h : s.particles ≠ []) :
    ∃ b, b ∈ s.particles ∧ (∀ p ∈ s.particles, b.best_z_value ≤ p.best_z_value)
      ∧ commitGlobalBest s = .ok (
          if (b.best_z_value : WithTop ℚ) < s.global_best_z_value then
            { s with
                global_best_z_value := (b.best_z_value : WithTop ℚ)
                global_best_position :=
                  ((b.best_position.1 : WithTop ℚ), (b.best_position.2 : WithTop ℚ)) }
          else s) := by
  obtain ⟨b, hb, hmem, hmin⟩ := insertionSort_head_min s.particles h
  refine ⟨b, hmem, hmin, ?_⟩
  unfold commitGlobalBest
  rw [hb]

lemma step_all_nil (s : ParticleSwarm) (rng : ℕ → ℚ) (h : s.particles = []) :
    s.step_all_particles rng = .error .indexError := by
  unfold ParticleSwarm.step_all_particles
  apply commitGlobalBest_nil
  rw [sweepLoop_particles, h]
  rfl

lemma step_ok_spec (s : ParticleSwarm) (rng : ℕ → ℚ) (h : s.particles ≠ []) :
    ∃ b, b ∈ (sweepLoop s rng).particles
      ∧ (∀ p ∈ (sweepLoop s rng).particles, b.best_z_value ≤ p.best_z_value)
      ∧ s.step_all_particles rng = .ok (
          if (b.best_z_value : WithTop ℚ) < s.global_best_z_value then
            { sweepLoop s rng with
                global_best_z_value := (b.best_z_value : WithTop ℚ)
                global_best_position :=
                  ((b.best_position.1 : WithTop ℚ), (b.best_position.2 : WithTop ℚ)) }
          else sweepLoop s rng) := by
  have hne : (sweepLoop s rng).particles ≠ [] := by
    intro he
    apply h
    have := sweepLoop_length s rng
    rw [he] at this
    exact List.length_eq_zero.mp this.symm
  obtain ⟨b, hmem, hmin, hcommit⟩ := commitGlobalBest_spec (sweepLoop s rng) hne
  refine ⟨b, hmem, hmin, ?_⟩
  unfold ParticleSwarm.step_all_particles
  rw [hcommit, (sweepLoop_fields s rng).2.2.2.2.1]

lemma step_ok_ne_nil (s s' : ParticleSwarm) (rng : ℕ → ℚ)
    (h : s.step_all_particles rng = .ok s') : s.particles ≠ [] := by
  intro he
  rw [step_all_nil s rng he] at h
  exact Except.noConfusion h

lemma step_ok_inversion (s s' : ParticleSwarm) (rng : ℕ → ℚ)
    (h : s.step_all_particles rng = .ok s') :
    s'.particles = (sweepLoop s rng).particles
    ∧ s'.cost_function = s.cost_function
    ∧ s'.x_bounds = s.x_bounds
    ∧ s'.y_bounds = s.y_bounds
    ∧ s'.n_particles = s.n_particles
    ∧ s'.global_best_z_value ≤ s.global_best_z_value := by
  obtain ⟨b, _, _, hstep⟩ := step_ok_spec s rng (step_ok_ne_nil s s' rng h)
  rw [h] at hstep
  have hs' := Except.ok.inj hstep
  obtain ⟨hf, hx, hy, hn, hz, _⟩ := sweepLoop_fields s rng
  by_cases hlt : (b.best_z_value : WithTop ℚ) < s.global_best_z_value
  · rw [if_pos hlt] at hs'
    rw [hs']
    refine ⟨rfl, hf, hx, hy, hn, ?_⟩
    show (b.best_z_value : WithTop ℚ) ≤ s.global_best_z_value
    exact hlt.le
  · rw [if_neg hlt] at hs'
    rw [hs']
    exact ⟨rfl, hf, hx, hy, hn, hz.le⟩

lemma sweep_nth (s : ParticleSwarm) (rng : ℕ → ℚ) (i : ℕ)
    (hi : i < s.particles.length) :
    (sweepLoop s rng).particles.getD i default
      = stepParticle s.cost_function s.x_bounds s.y_bounds (gbPos s)
          (fun k => rng (4 * i + k)) (s.particles.getD i default) := by
  rw [sweepLoop_particles]
  have hlen : i < ((List.range s.particles.length).map (fun i =>
      stepParticle s.cost_function s.x_bounds s.y_bounds (gbPos s)
        (fun k => rng (4 * i + k)) (s.particles.getD i default))).length := by
    simpa using hi
  rw [List.getD_eq_getElem _ _ hlen, List.getElem_map, List.getElem_range]

/-! ### The global best tracks the minimum personal best -/

lemma minimum_map_bz_eq (l : List Particle) (b : Particle) (hmem : b ∈ l)
    (hmin : ∀ p ∈ l, b.best_z_value ≤ p.best_z_value) :
    (l.map Particle.best_z_value).minimum = (b.best_z_value : WithTop ℚ) := by
  rw [List.minimum_eq_coe_iff]
  refine ⟨List.mem_map_of_mem _ hmem, ?_⟩
  intro a ha
  obtain ⟨p, hp, rfl⟩ := List.mem_map.mp ha
  exact hmin p hp

lemma minPB_sweep_le (s : ParticleSwarm) (rng : ℕ → ℚ) :
    minPersonalBest (sweepLoop s rng) ≤ minPersonalBest s := by
  apply List.le_minimum_of_forall_le
  intro a ha
  obtain ⟨p, hp, rfl⟩ := List.mem_map.mp ha
  obtain ⟨i, hi, hpi⟩ := List.getElem_of_mem hp
  have hi' : i < (sweepLoop s rng).particles.length := by
    rw [sweepLoop_length]
    exact hi
  have hq : (sweepLoop s rng).particles.getD i default ∈ (sweepLoop s rng).particles := by
    rw [List.getD_eq_getElem _ _ hi']
    exact List.getElem_mem hi'
  have h1 : minPersonalBest (sweepLoop s rng)
      ≤ (((sweepLoop s rng).particles.getD i default).best_z_value : WithTop ℚ) :=
    List.minimum_le_of_mem' (List.mem_map_of_mem _ hq)
  have h2 : ((sweepLoop s rng).particles.getD i default).best_z_value ≤ p.best_z_value := by
    rw [sweep_nth s rng i hi, List.getD_eq_getElem _ _ hi, hpi]
    exact stepParticle_bz_le _ _ _ _ _ _
  exact le_trans h1 (WithTop.coe_le_coe.mpr h2)

lemma step_ok_gbz_minPB (s s' : ParticleSwarm) (rng : ℕ → ℚ)
    (h : s.step_all_particles rng = .ok s')
    (hinv : s.global_best_z_value = minPersonalBest s) :
    s'.global_best_z_value = minPersonalBest s' := by
  obtain ⟨b, hmem, hmin, hstep⟩ := step_ok_spec s rng (step_ok_ne_nil s s' rng h)
  rw [h] at hstep
  have hs' := Except.ok.inj hstep
  have hparts : s'.particles = (sweepLoop s rng).particles :=
    (step_ok_inversion s s' rng h).1
  have hPB : minPersonalBest s' = (b.best_z_value : WithTop ℚ) := by
    unfold minPersonalBest
    rw [hparts]
    exact minimum_map_bz_eq _ b hmem hmin
  by_cases hlt : (b.best_z_value : WithTop ℚ) < s.global_best_z_value
  · rw [if_pos hlt] at hs'
    rw [hPB, hs']
  · rw [if_neg hlt] at hs'
    have h2 : minPersonalBest s' ≤ s.global_best_z_value := by
      unfold minPersonalBest
      rw [hparts, hinv]
      exact minPB_sweep_le s rng
    have h1 : s.global_best_z_value ≤ minPersonalBest s' := by
      rw [hPB]
      exact not_lt.mp hlt
    have hgb : s'.global_best_z_value = s.global_best_z_value := by
      rw [hs']
      exact (sweepLoop_fields s rng).2.2.2.2.1
    rw [hgb]
    exact le_antisymm h1 h2

lemma initStep_gbz (rng : ℕ → ℚ) (acc : ParticleSwarm) (i : ℕ)
    (h : acc.global_best_z_value = minPersonalBest acc) :
    (initStep rng acc i).global_best_z_value = minPersonalBest (initStep rng acc i) := by
  have hparts := initStep_particles rng acc i
  have hmin : minPersonalBest (initStep rng acc i)
      = minPersonalBest acc
        ⊓ ((initParticle acc.cost_function acc.x_bounds rng i).best_z_value : WithTop ℚ) := by
    unfold minPersonalBest
    rw [hparts, List.map_append, List.map_cons, List.map_nil, List.minimum_concat]
  rw [hmin]
  simp only [initStep]
  split
  case isTrue hlt =>
    have hle : ((initParticle acc.cost_function acc.x_bounds rng i).best_z_value : WithTop ℚ)
        ≤ minPersonalBest acc := by
      rw [← h]
      exact le_of_lt hlt
    exact (inf_eq_right.mpr hle).symm
  case isFalse hlt =>
    have hge : minPersonalBest acc
        ≤ ((initParticle acc.cost_function acc.x_bounds rng i).best_z_value : WithTop ℚ) := by
      rw [← h]
      exact not_lt.mp hlt
    show acc.global_best_z_value = _
    rw [h]
    exact (inf_eq_left.mpr hge).symm

lemma foldl_initStep_gbz (rng : ℕ → ℚ) (l : List ℕ) :
    ∀ acc : ParticleSwarm, acc.global_best_z_value = minPersonalBest acc →
      (l.foldl (initStep rng) acc).global_best_z_value
        = minPersonalBest (l.foldl (initStep rng) acc) := by
  induction l with
  | nil => intro acc h; exact h
  | cons i l ih =>
    intro acc h
    rw [List.foldl_cons]
    exact ih (initStep rng acc i) (initStep_gbz rng acc i h)

lemma init_swarm_gbz (n : ℤ) (f : ℚ → ℚ → ℚ) (xb yb : ℚ × ℚ) (rng : ℕ → ℚ) :
    ((ParticleSwarm.new n f xb yb).init_swarm rng).global_best_z_value
      = minPersonalBest ((ParticleSwarm.new n f xb yb).init_swarm rng) := by
  apply foldl_initStep_gbz
  simp [ParticleSwarm.new, minPersonalBest]

/-! ### Trajectories -/

lemma step_ok_length (s s' : ParticleSwarm) (rng : ℕ → ℚ)
    (h : s.step_all_particles rng = .ok s') :
    s'.particles.length = s.particles.length := by
  rw [(step_ok_inversion s s' rng h).1, sweepLoop_length]

lemma runStates_nil_inv (s : ParticleSwarm) (states : List ParticleSwarm)
    (h : runStates s [] = .ok states) : states = [s] :=
  (Except.ok.inj h).symm

lemma runStates_cons_inv (s : ParticleSwarm) (r : ℕ → ℚ) (rs : List (ℕ → ℚ))
    (states : List ParticleSwarm) (h : runStates s (r :: rs) = .ok states) :
    ∃ s' rest, s.step_all_particles r = .ok s' ∧ runStates s' rs = .ok rest
      ∧ states = s :: rest := by
  unfold runStates at h
  cases ha : s.step_all_particles r with
  | error e =>
    rw [ha] at h
    simp only [bind, Except.bind] at h
    exact Except.noConfusion h
  | ok s' =>
    rw [ha] at h
    simp only [bind, Except.bind] at h
    cases hb : runStates s' rs with
    | error e =>
      rw [hb] at h
      simp only [Functor.map, Except.map] at h
      exact Except.noConfusion h
    | ok rest =>
      rw [hb] at h
      simp only [Functor.map, Except.map, pure, Except.pure, Except.ok.injEq] at h
      exact ⟨s', rest, rfl, hb, h.symm⟩

lemma runStates_head (s : ParticleSwarm) (rs : List (ℕ → ℚ))
    (states : List ParticleSwarm) (h : runStates s rs = .ok states) :
    states.head? = some s := by
  cases rs with
  | nil => rw [runStates_nil_inv s states h]; rfl
  | cons r rs =>
    obtain ⟨s', rest, _, _, hst⟩ := runStates_cons_inv s r rs states h
    rw [hst]
    rfl

lemma runStates_ne_nil (s : ParticleSwarm) (rs : List (ℕ → ℚ))
    (states : List ParticleSwarm) (h : runStates s rs = .ok states) :
    states ≠ [] := by
  intro he
  have := runStates_head s rs states h
  rw [he] at this
  exact Option.noConfusion this

lemma runStates_fields (rs : List (ℕ → ℚ)) :
    ∀ (s : ParticleSwarm) (states : List ParticleSwarm),
      runStates s rs = .ok states →
      ∀ t ∈ states, t.cost_function = s.cost_function
        ∧ t.x_bounds = s.x_bounds ∧ t.y_bounds = s.y_bounds
        ∧ t.particles.length = s.particles.length := by
  induction rs with
  | nil =>
    intro s states h t ht
    rw [runStates_nil_inv s states h, List.mem_singleton] at ht
    rw [ht]
    exact ⟨rfl, rfl, rfl, rfl⟩
  | cons r rs ih =>
    intro s states h t ht
    obtain ⟨s', rest, hstep, hrest, hst⟩ := runStates_cons_inv s r rs states h
    rw [hst, List.mem_cons] at ht
    rcases ht with rfl | ht
    · exact ⟨rfl, rfl, rfl, rfl⟩
    · obtain ⟨hf, hx, hy, hl⟩ := ih s' rest hrest t ht
      obtain ⟨_, gf, gx, gy, _, _⟩ := step_ok_inversion s s' r hstep
      exact ⟨hf.trans gf, hx.trans gx, hy.trans gy,
        hl.trans (step_ok_length s s' r hstep)⟩

/-! ### Per-particle behaviour across a step -/

/-- The cost the swarm evaluated at particle `i`'s current position in
state `t` (pso.py line 51 during initialization, line 100 during a step). -/
def observedCost (t : ParticleSwarm) (i : ℕ) : ℚ :=
  t.cost_function (nthParticle t i).position.1 (nthParticle t i).position.2

lemma step_nth (s s' : ParticleSwarm) (rng : ℕ → ℚ) (i : ℕ)
    (h : s.step_all_particles rng = .ok s') (hi : i < s.particles.length) :
    nthParticle s' i
      = stepParticle s.cost_function s.x_bounds s.y_bounds (gbPos s)
          (fun k => rng (4 * i + k)) (nthParticle s i) := by
  unfold nthParticle
  rw [(step_ok_inversion s s' rng h).1, sweep_nth s rng i hi]

lemma step_bz_recurrence (s s' : ParticleSwarm) (rng : ℕ → ℚ) (i : ℕ)
    (h : s.step_all_particles rng = .ok s') (hi : i < s.particles.length) :
    (nthParticle s' i).best_z_value
      = min (nthParticle s i).best_z_value (observedCost s' i) := by
  unfold observedCost
  rw [(step_ok_inversion s s' rng h).2.1, step_nth s s' rng i h hi]
  exact stepParticle_best_z _ _ _ _ _ _

lemma step_bz_sound (s s' : ParticleSwarm) (rng : ℕ → ℚ) (i : ℕ)
    (h : s.step_all_particles rng = .ok s') (hi : i < s.particles.length)
    (hs : (nthParticle s i).best_z_value
      = s.cost_function (nthParticle s i).best_position.1
          (nthParticle s i).best_position.2) :
    (nthParticle s' i).best_z_value
      = s'.cost_function (nthParticle s' i).best_position.1
          (nthParticle s' i).best_position.2 := by
  rw [(step_ok_inversion s s' rng h).2.1, step_nth s s' rng i h hi]
  exact stepParticle_best_sound _ _ _ _ _ _ hs

/-! ### Boundedness -/

lemma uniform_mem (b : ℚ × ℚ) (hb : b.1 ≤ b.2) (u : ℚ) (hu0 : 0 ≤ u) (hu1 : u ≤ 1) :
    b.1 ≤ uniform b u ∧ uniform b u ≤ b.2 := by
  unfold uniform
  constructor
  · have : 0 ≤ (b.2 - b.1) * u := mul_nonneg (sub_nonneg.mpr hb) hu0
    linarith
  · have : (b.2 - b.1) * u ≤ (b.2 - b.1) * 1 :=
      mul_le_mul_of_nonneg_left hu1 (sub_nonneg.mpr hb)
    linarith

lemma initParticle_coords (f : ℚ → ℚ → ℚ) (xb : ℚ × ℚ) (rng : ℕ → ℚ) (i : ℕ) :
    (initParticle f xb rng i).position
        = (uniform xb (rng (4 * i)), uniform xb (rng (4 * i + 1)))
    ∧ (initParticle f xb rng i).velocity
        = (uniform xb (rng (4 * i + 2)), uniform xb (rng (4 * i + 3)))
    ∧ (initParticle f xb rng i).best_position = (initParticle f xb rng i).position
    ∧ (initParticle f xb rng i).best_z_value
        = f (initParticle f xb rng i).position.1 (initParticle f xb rng i).position.2 := by
  exact ⟨rfl, rfl, rfl, rfl⟩

lemma init_swarm_coord_bounds (n : ℤ) (f : ℚ → ℚ → ℚ) (xb yb : ℚ × ℚ) (rng : ℕ → ℚ)
    (hxb : xb.1 ≤ xb.2) (hrng : ∀ k, 0 ≤ rng k ∧ rng k ≤ 1) :
    ∀ p ∈ ((ParticleSwarm.new n f xb yb).init_swarm rng).particles,
      (xb.1 ≤ p.position.1 ∧ p.position.1 ≤ xb.2)
      ∧ (xb.1 ≤ p.position.2 ∧ p.position.2 ≤ xb.2)
      ∧ (xb.1 ≤ p.velocity.1 ∧ p.velocity.1 ≤ xb.2)
      ∧ (xb.1 ≤ p.velocity.2 ∧ p.velocity.2 ≤ xb.2) := by
  intro p hp
  rw [init_swarm_particles] at hp
  simp only [ParticleSwarm.new, List.nil_append, List.mem_map] at hp
  obtain ⟨i, _, rfl⟩ := hp
  exact ⟨uniform_mem xb hxb _ (hrng _).1 (hrng _).2,
    uniform_mem xb hxb _ (hrng _).1 (hrng _).2,
    uniform_mem xb hxb _ (hrng _).1 (hrng _).2,
    uniform_mem xb hxb _ (hrng _).1 (hrng _).2⟩

lemma step_ok_bounds (s s' : ParticleSwarm) (rng : ℕ → ℚ)
    (h : s.step_all_particles rng = .ok s')
    (hxb : s.x_bounds.1 ≤ s.x_bounds.2) (hyb : s.y_bounds.1 ≤ s.y_bounds.2) :
    ∀ p ∈ s'.particles,
      (s.x_bounds.1 ≤ p.position.1 ∧ p.position.1 ≤ s.x_bounds.2)
      ∧ (s.y_bounds.1 ≤ p.position.2 ∧ p.position.2 ≤ s.y_bounds.2) := by
  intro p hp
  rw [(step_ok_inversion s s' rng h).1, sweepLoop_particles, List.mem_map] at hp
  obtain ⟨i, _, rfl⟩ := hp
  obtain ⟨v0, v1, hpos⟩ := stepParticle_position s.cost_function s.x_bounds s.y_bounds
    (gbPos s) (fun k => rng (4 * i + k)) (s.particles.getD i default)
  rw [hpos]
  exact ⟨clamp_mem s.x_bounds hxb _, clamp_mem s.y_bounds hyb _⟩

lemma runStates_bounds (rs : List (ℕ → ℚ)) :
    ∀ (s : ParticleSwarm) (states : List ParticleSwarm),
      runStates s rs = .ok states →
      s.x_bounds.1 ≤ s.x_bounds.2 → s.y_bounds.1 ≤ s.y_bounds.2 →
      ∀ t ∈ states, t = s ∨ ∀ p ∈ t.particles,
        (s.x_bounds.1 ≤ p.position.1 ∧ p.position.1 ≤ s.x_bounds.2)
        ∧ (s.y_bounds.1 ≤ p.position.2 ∧ p.position.2 ≤ s.y_bounds.2) := by
  induction rs with
  | nil =>
    intro s states h _ _ t ht
    rw [runStates_nil_inv s states h, List.mem_singleton] at ht
    exact Or.inl ht
  | cons r rs ih =>
    intro s states h hxb hyb t ht
    obtain ⟨s', rest, hstep, hrest, hst⟩ := runStates_cons_inv s r rs states h
    rw [hst, List.mem_cons] at ht
    rcases ht with rfl | ht
    · exact Or.inl rfl
    · right
      obtain ⟨_, _, hx', hy', _, _⟩ := step_ok_inversion s s' r hstep
      rcases ih s' rest hrest (hx' ▸ hxb) (hy' ▸ hyb) t ht with rfl | hbt
      · exact step_ok_bounds s t r hstep hxb hyb
      · intro p hp
        obtain ⟨h1, h2⟩ := hbt p hp
        rw [hx', hy'] at *
        exact ⟨h1, h2⟩

/-! ### Personal bests along a run -/

lemma inf_absorb_aux {A : Type} [Lattice A] (b c c' m : A) (hbc : b ⊓ c = b) :
    b ⊓ c' ⊓ (c' ⊓ m) = b ⊓ (c ⊓ (c' ⊓ m)) := by
  rw [inf_assoc]
  rw [show c' ⊓ (c' ⊓ m) = c' ⊓ m by rw [← inf_assoc, inf_idem]]
  rw [show b ⊓ (c ⊓ (c' ⊓ m)) = b ⊓ c ⊓ (c' ⊓ m) by rw [inf_assoc]]
  rw [hbc]

lemma runStates_bz_min (rs : List (ℕ → ℚ)) :
    ∀ (s : ParticleSwarm) (states : List ParticleSwarm),
      runStates s rs = .ok states →
      ∀ i : ℕ, i < s.particles.length →
      (nthParticle s i).best_z_value ≤ observedCost s i →
      ∀ hne : states ≠ [],
      ((nthParticle (states.getLast hne) i).best_z_value : WithTop ℚ)
        = min ((nthParticle s i).best_z_value : WithTop ℚ)
            ((states.map (fun t => observedCost t i)).minimum) := by
  induction rs with
  | nil =>
    intro s states h i hi hb hne
    have hst := runStates_nil_inv s states h
    subst hst
    show ((nthParticle s i).best_z_value : WithTop ℚ)
      = min ((nthParticle s i).best_z_value : WithTop ℚ) ([observedCost s i].minimum)
    rw [List.minimum_singleton]
    exact (min_eq_left (WithTop.coe_le_coe.mpr hb)).symm
  | cons r rs ih =>
    intro s states h i hi hb hne
    obtain ⟨s', rest, hstep, hrest, hst⟩ := runStates_cons_inv s r rs states h
    subst hst
    have hlen : i < s'.particles.length := by
      rw [step_ok_length s s' r hstep]
      exact hi
    have hrec := step_bz_recurrence s s' r i hstep hi
    have hb' : (nthParticle s' i).best_z_value ≤ observedCost s' i := by
      rw [hrec]
      exact min_le_right _ _
    have hrne : rest ≠ [] := runStates_ne_nil s' rs rest hrest
    obtain ⟨rest', hsh⟩ : ∃ rest', rest = s' :: rest' := by
      cases rest with
      | nil => exact absurd rfl hrne
      | cons a l =>
        have hh := runStates_head s' rs (a :: l) hrest
        simp only [List.head?_cons, Option.some.injEq] at hh
        exact ⟨l, by rw [hh]⟩
    subst hsh
    have ihv := ih s' (s' :: rest') hrest i hlen hb' hrne
    rw [List.getLast_cons hrne, ihv, hrec]
    simp only [List.map_cons, List.minimum_cons, WithTop.coe_min]
    exact inf_absorb_aux _ _ _ _ (inf_eq_left.mpr (WithTop.coe_le_coe.mpr hb))

lemma runStates_sound (rs : List (ℕ → ℚ)) :
    ∀ (s : ParticleSwarm) (states : List ParticleSwarm),
      runStates s rs = .ok states →
      ∀ i : ℕ, i < s.particles.length →
      (nthParticle s i).best_z_value
        = s.cost_function (nthParticle s i).best_position.1
            (nthParticle s i).best_position.2 →
      ∀ t ∈ states,
        (nthParticle t i).best_z_value
          = t.cost_function (nthParticle t i).best_position.1
              (nthParticle t i).best_position.2 := by
  induction rs with
  | nil =>
    intro s states h i _ hs t ht
    rw [runStates_nil_inv s states h, List.mem_singleton] at ht
    rw [ht]
    exact hs
  | cons r rs ih =>
    intro s states h i hi hs t ht
    obtain ⟨s', rest, hstep, hrest, hst⟩ := runStates_cons_inv s r rs states h
    rw [hst, List.mem_cons] at ht
    rcases ht with rfl | ht
    · exact hs
    · have hlen : i < s'.particles.length := by
        rw [step_ok_length s s' r hstep]
        exact hi
      exact ih s' rest hrest i hlen (step_bz_sound s s' r i hstep hi hs) t ht

lemma runStates_bz_chain (rs : List (ℕ → ℚ)) :
    ∀ (s : ParticleSwarm) (states : List ParticleSwarm),
      runStates s rs = .ok states →
      ∀ i : ℕ, i < s.particles.length →
      List.Chain' (fun a b =>
        (nthParticle b i).best_z_value ≤ (nthParticle a i).best_z_value) states := by
  induction rs with
  | nil =>
    intro s states h i _
    rw [runStates_nil_inv s states h]
    exact List.chain'_singleton s
  | cons r rs ih =>
    intro s states h i hi
    obtain ⟨s', rest, hstep, hrest, hst⟩ := runStates_cons_inv s r rs states h
    subst hst
    rw [List.chain'_cons']
    constructor
    · intro y hy
      rw [runStates_head s' rs rest hrest, Option.mem_some_iff] at hy
      subst hy
      rw [step_bz_recurrence s s' r i hstep hi]
      exact min_le_left _ _
    · exact ih s' rest hrest i (by rw [step_ok_length s s' r hstep]; exact hi)

lemma runStates_gbz_chain (rs : List (ℕ → ℚ)) :
    ∀ (s : ParticleSwarm) (states : List ParticleSwarm),
      runStates s rs = .ok states →
      List.Chain' (fun a b =>
        b.global_best_z_value ≤ a.global_best_z_value) states := by
  induction rs with
  | nil =>
    intro s states h
    rw [runStates_nil_inv s states h]
    exact List.chain'_singleton s
  | cons r rs ih =>
    intro s states h
    obtain ⟨s', rest, hstep, hrest, hst⟩ := runStates_cons_inv s r rs states h
    subst hst
    rw [List.chain'_cons']
    refine ⟨?_, ih s' rest hrest⟩
    intro y hy
    rw [runStates_head s' rs rest hrest, Option.mem_some_iff] at hy
    subst hy
    exact (step_ok_inversion s s' r hstep).2.2.2.2.2

/-! ### The global best along a run -/

lemma runStates_gbz_minPB (rs : List (ℕ → ℚ)) :
    ∀ (s : ParticleSwarm) (states : List ParticleSwarm),
      runStates s rs = .ok states →
      s.global_best_z_value = minPersonalBest s →
      ∀ t ∈ states, t.global_best_z_value = minPersonalBest t := by
  induction rs with
  | nil =>
    intro s states h hinv t ht
    rw [runStates_nil_inv s states h, List.mem_singleton] at ht
    rw [ht]
    exact hinv
  | cons r rs ih =>
    intro s states h hinv t ht
    obtain ⟨s', rest, hstep, hrest, hst⟩ := runStates_cons_inv s r rs states h
    rw [hst, List.mem_cons] at ht
    rcases ht with rfl | ht
    · exact hinv
    · exact ih s' rest hrest (step_ok_gbz_minPB s s' r hstep hinv) t ht

lemma nthParticle_mem (t : ParticleSwarm) (j : ℕ) (hj : j < t.particles.length) :
    nthParticle t j ∈ t.particles := by
  unfold nthParticle
  rw [List.getD_eq_getElem _ _ hj]
  exact List.getElem_mem hj

lemma observedCost_mem_allEval (states : List ParticleSwarm) (t : ParticleSwarm)
    (ht : t ∈ states) (j : ℕ) (hj : j < t.particles.length) :
    observedCost t j ∈ allEvalCosts states := by
  unfold allEvalCosts
  rw [List.mem_flatMap]
  refine ⟨t, ht, ?_⟩
  rw [List.mem_map]
  exact ⟨nthParticle t j, nthParticle_mem t j hj, rfl⟩

lemma allEval_inv (states : List ParticleSwarm) (a : ℚ) (ha : a ∈ allEvalCosts states) :
    ∃ t ∈ states, ∃ j, j < t.particles.length ∧ a = observedCost t j := by
  unfold allEvalCosts at ha
  rw [List.mem_flatMap] at ha
  obtain ⟨t, ht, hat⟩ := ha
  rw [List.mem_map] at hat
  obtain ⟨p, hp, hpa⟩ := hat
  obtain ⟨j, hj, hpj⟩ := List.getElem_of_mem hp
  refine ⟨t, ht, j, hj, ?_⟩
  unfold observedCost nthParticle
  rw [List.getD_eq_getElem _ _ hj, hpj, hpa]

lemma minimum_attained {l : List ℚ} (h : l ≠ []) :
    ∃ a ∈ l, l.minimum = (a : WithTop ℚ) := by
  cases hm : l.minimum with
  | top => exact absurd (List.minimum_eq_top.mp hm) h
  | coe a => exact ⟨a, List.minimum_mem hm, rfl⟩

lemma runStates_gbz_allEval (rs : List (ℕ → ℚ)) (s : ParticleSwarm)
    (states : List ParticleSwarm) (h : runStates s rs = .ok states)
    (hinv : s.global_best_z_value = minPersonalBest s)
    (hb : ∀ i, i < s.particles.length →
      (nthParticle s i).best_z_value = observedCost s i)
    (hne : states ≠ []) :
    (states.getLast hne).global_best_z_value = (allEvalCosts states).minimum := by
  have hlast_mem : states.getLast hne ∈ states := List.getLast_mem hne
  have hs_mem : s ∈ states := by
    have hh := runStates_head s rs states h
    cases states with
    | nil => exact absurd rfl hne
    | cons a l =>
      simp only [List.head?_cons, Option.some.injEq] at hh
      rw [hh]
      exact List.mem_cons_self s l
  have hflds := runStates_fields rs s states h
  have hlen_last : (states.getLast hne).particles.length = s.particles.length :=
    (hflds _ hlast_mem).2.2.2
  have hgb : (states.getLast hne).global_best_z_value
      = minPersonalBest (states.getLast hne) :=
    runStates_gbz_minPB rs s states h hinv _ hlast_mem
  apply le_antisymm
  · apply List.le_minimum_of_forall_le
    intro a ha
    obtain ⟨t, ht, j, hj, rfl⟩ := allEval_inv states a ha
    have hj_s : j < s.particles.length := by
      rw [← (hflds t ht).2.2.2]
      exact hj
    have hj_last : j < (states.getLast hne).particles.length := by
      rw [hlen_last]
      exact hj_s
    have h1 : minPersonalBest (states.getLast hne)
        ≤ ((nthParticle (states.getLast hne) j).best_z_value : WithTop ℚ) :=
      List.minimum_le_of_mem'
        (List.mem_map_of_mem _ (nthParticle_mem _ j hj_last))
    have h2 : ((nthParticle (states.getLast hne) j).best_z_value : WithTop ℚ)
        ≤ (observedCost t j : WithTop ℚ) := by
      rw [runStates_bz_min rs s states h j hj_s (le_of_eq (hb j hj_s)) hne]
      refine le_trans (min_le_right _ _) ?_
      exact List.minimum_le_of_mem' (List.mem_map_of_mem _ ht)
    rw [hgb]
    exact le_trans h1 h2
  · rw [hgb]
    cases hm : minPersonalBest (states.getLast hne) with
    | top => exact le_top
    | coe m =>
      have hmem : m ∈ (states.getLast hne).particles.map Particle.best_z_value :=
        List.minimum_mem hm
      rw [List.mem_map] at hmem
      obtain ⟨p, hp, hpm⟩ := hmem
      obtain ⟨j, hj, hpj⟩ := List.getElem_of_mem hp
      have hj_s : j < s.particles.length := by
        rw [← hlen_last]
        exact hj
      have hbzlast : (nthParticle (states.getLast hne) j).best_z_value = m := by
        unfold nthParticle
        rw [List.getD_eq_getElem _ _ hj, hpj, hpm]
      have hmin := runStates_bz_min rs s states h j hj_s (le_of_eq (hb j hj_s)) hne
      rw [hbzlast] at hmin
      rcases le_total ((nthParticle s j).best_z_value : WithTop ℚ)
          ((states.map (fun t => observedCost t j)).minimum) with hc | hc
      · have : (m : WithTop ℚ) = ((nthParticle s j).best_z_value : WithTop ℚ) := by
          rw [hmin, min_eq_left hc]
        rw [this, hb j hj_s]
        exact List.minimum_le_of_mem' (observedCost_mem_allEval states s hs_mem j hj_s)
      · have hMne : states.map (fun t => observedCost t j) ≠ [] := by
          intro he
          exact hne (List.map_eq_nil_iff.mp he)
        obtain ⟨w, hw, hwm⟩ := minimum_attained hMne
        rw [List.mem_map] at hw
        obtain ⟨t, ht, hwt⟩ := hw
        have hj_t : j < t.particles.length := by
          rw [(hflds t ht).2.2.2]
          exact hj_s
        have : (m : WithTop ℚ) = (w : WithTop ℚ) := by
          rw [hmin, min_eq_right hc, hwm]
        rw [this, ← hwt]
        exact List.minimum_le_of_mem' (observedCost_mem_allEval states t ht j hj_t)

/-! ### Facts about the state right after initialization -/

lemma init_swarm_length (n : ℤ) (f : ℚ → ℚ → ℚ) (xb yb : ℚ × ℚ) (rng : ℕ → ℚ) :
    ((ParticleSwarm.new n f xb yb).init_swarm rng).particles.length = n.toNat := by
  rw [init_swarm_particles]
  show (([] : List Particle) ++ (List.range n.toNat).map (initParticle f xb rng)).length
    = n.toNat
  simp

lemma init_nth (n : ℤ) (f : ℚ → ℚ → ℚ) (xb yb : ℚ × ℚ) (rng : ℕ → ℚ) (i : ℕ)
    (hi : i < n.toNat) :
    nthParticle ((ParticleSwarm.new n f xb yb).init_swarm rng) i
      = initParticle f xb rng i := by
  unfold nthParticle
  rw [init_swarm_particles]
  show (([] : List Particle) ++ (List.range n.toNat).map (initParticle f xb rng)).getD i default
    = initParticle f xb rng i
  rw [List.nil_append]
  have hlen : i < ((List.range n.toNat).map (initParticle f xb rng)).length := by
    simpa using hi
  rw [List.getD_eq_getElem _ _ hlen, List.getElem_map, List.getElem_range]

lemma init_sound (n : ℤ) (f : ℚ → ℚ → ℚ) (xb yb : ℚ × ℚ) (rng : ℕ → ℚ) (i : ℕ)
    (hi : i < n.toNat) :
    (nthParticle ((ParticleSwarm.new n f xb yb).init_swarm rng) i).best_z_value
      = observedCost ((ParticleSwarm.new n f xb yb).init_swarm rng) i
    ∧ (nthParticle ((ParticleSwarm.new n f xb yb).init_swarm rng) i).best_z_value
      = ((ParticleSwarm.new n f xb yb).init_swarm rng).cost_function
          (nthParticle ((ParticleSwarm.new n f xb yb).init_swarm rng) i).best_position.1
          (nthParticle ((ParticleSwarm.new n f xb yb).init_swarm rng) i).best_position.2 := by
  have hn := init_nth n f xb yb rng i hi
  have hcf : ((ParticleSwarm.new n f xb yb).init_swarm rng).cost_function = f :=
    (init_swarm_fields _ rng).1
  unfold observedCost
  rw [hn, hcf]
  exact ⟨rfl, rfl⟩

/-! ### `initialize_swarm` never reads `y_bounds` -/

lemma initStep_yb (rng : ℕ → ℚ) (acc : ParticleSwarm) (yb' : ℚ × ℚ) (i : ℕ) :
    initStep rng { acc with y_bounds := yb' } i
      = { initStep rng acc i with y_bounds := yb' } := by
  simp only [initStep]
  split
  case isTrue h => rfl
  case isFalse h => rfl

lemma foldl_initStep_yb (rng : ℕ → ℚ) (l : List ℕ) :
    ∀ (acc : ParticleSwarm) (yb' : ℚ × ℚ),
      l.foldl (initStep rng) { acc with y_bounds := yb' }
        = { l.foldl (initStep rng) acc with y_bounds := yb' } := by
  induction l with
  | nil => intro acc yb'; rfl
  | cons i l ih =>
    intro acc yb'
    rw [List.foldl_cons, initStep_yb, ih, List.foldl_cons]

lemma init_swarm_yb (n : ℤ) (f : ℚ → ℚ → ℚ) (xb yb yb' : ℚ × ℚ) (rng : ℕ → ℚ) :
    (ParticleSwarm.new n f xb yb').init_swarm rng
      = { (ParticleSwarm.new n f xb yb).init_swarm rng with y_bounds := yb' } := by
  unfold ParticleSwarm.init_swarm
  exact foldl_initStep_yb rng (List.range n.toNat) (ParticleSwarm.new n f xb yb) yb'

/-! ### The sweep is a two-phase update -/

lemma step_eq_two_phase (s : ParticleSwarm) (rng : ℕ → ℚ) :
    s.step_all_particles rng = step_two_phase s rng := by
  unfold ParticleSwarm.step_all_particles step_two_phase
  rw [sweepLoop_eq]

/-! ### Unfolding `search` -/

lemma search_zero (s : ParticleSwarm) (rng : ℕ → ℚ) :
    s.search rng 0 = .ok (s.global_best_z_value, s.global_best_position) := rfl

lemma searchSteps_zero (s : ParticleSwarm) (rng : ℕ → ℚ) :
    searchSteps 0 s rng = .ok s := rfl

lemma searchSteps_succ (s : ParticleSwarm) (rng : ℕ → ℚ) (n : ℕ) :
    searchSteps (n + 1) s rng
      = (s.step_all_particles rng).bind
          (fun s' => searchSteps n s' (rngDrop rng (4 * s.particles.length))) := rfl

lemma search_eq (s : ParticleSwarm) (rng : ℕ → ℚ) (n : ℕ) :
    s.search rng n
      = (searchSteps n s rng).map
          (fun s' => (s'.global_best_z_value, s'.global_best_position)) := by
  unfold ParticleSwarm.search
  cases searchSteps n s rng with
  | error e => rfl
  | ok s' => rfl

/-! ### Concrete instances used to exhibit runs and counterexamples -/

def zeroCost : ℚ → ℚ → ℚ := fun _ _ => 0

def zeroRng : ℕ → ℚ := fun _ => 0

def halfRng : ℕ → ℚ := fun _ => 1 / 2

def zeroParticle : Particle := ⟨(0, 0), (0, 0), 0, (0, 0)⟩

/-- A concrete initialized one-particle swarm in which every quantity is 0. -/
def zeroSwarm : ParticleSwarm :=
  (ParticleSwarm.new 1 zeroCost (0, 0) (0, 0)).init_swarm zeroRng

lemma zeroSwarm_eq :
    zeroSwarm =
      { n_particles := 1, cost_function := zeroCost, x_bounds := (0, 0),
        y_bounds := (0, 0), global_best_z_value := ((0 : ℚ) : WithTop ℚ),
        global_best_position := (((0 : ℚ) : WithTop ℚ), ((0 : ℚ) : WithTop ℚ)),
        particles := [zeroParticle] } := by
  unfold zeroSwarm ParticleSwarm.init_swarm
  show (List.range (1 : ℤ).toNat).foldl (initStep zeroRng)
      (ParticleSwarm.new 1 zeroCost (0, 0) (0, 0)) = _
  rw [show List.range (1 : ℤ).toNat = [0] from rfl, List.foldl_cons, List.foldl_nil]
  norm_num [initStep, initParticle, uniform, zeroCost, zeroRng,
    ParticleSwarm.new, zeroParticle, WithTop.coe_lt_top]

lemma zeroSwarm_step :
    zeroSwarm.step_all_particles zeroRng = .ok zeroSwarm := by
  rw [zeroSwarm_eq]
  unfold ParticleSwarm.step_all_particles
  rw [sweepLoop_eq]
  norm_num [stepParticle, clamp, gbPos, inertia, cognitive_coefficient,
    social_coefficient, zeroCost, zeroRng, zeroParticle, commitGlobalBest,
    List.insertionSort, List.orderedInsert, zLE]
  rw [show (List.range 1) = [0] from rfl]
  simp

lemma zeroSwarm_run :
    runStates zeroSwarm [zeroRng] = .ok [zeroSwarm, zeroSwarm] := by
  unfold runStates
  rw [zeroSwarm_step]
  rfl

lemma zeroSwarm_length : zeroSwarm.particles.length = 1 := by
  rw [zeroSwarm_eq]
  rfl

/-- A swarm on which `initialize_swarm` was never called. -/
def emptySwarm : ParticleSwarm :=
  ParticleSwarm.new 3 zeroCost (-5.12, 5.12) (-5.12, 5.12)

/-- A one-particle swarm initialized with `x_bounds = (0, 1)` but
`y_bounds = (2, 3)`: the draw `u = 1/2` puts the particle at `(1/2, 1/2)`,
whose y-coordinate is outside `y_bounds`. -/
def cexSwarm : ParticleSwarm :=
  (ParticleSwarm.new 1 zeroCost (0, 1) (2, 3)).init_swarm halfRng

lemma cexSwarm_pos : (nthParticle cexSwarm 0).position = (1 / 2, 1 / 2) := by
  unfold cexSwarm
  rw [init_nth 1 zeroCost (0, 1) (2, 3) halfRng 0 (by norm_num)]
  show (uniform (0, 1) (halfRng 0), uniform (0, 1) (halfRng 1)) = (1 / 2, 1 / 2)
  norm_num [uniform, halfRng]

/-- Like `cexSwarm` with `y_bounds = (5, 6)`; used for the implicit claim
that initialization draws the y-coordinate from `x_bounds`. -/
def c10Swarm : ParticleSwarm :=
  (ParticleSwarm.new 1 zeroCost (0, 1) (5, 6)).init_swarm halfRng

lemma c10Swarm_pos : (nthParticle c10Swarm 0).position = (1 / 2, 1 / 2) := by
  unfold c10Swarm
  rw [init_nth 1 zeroCost (0, 1) (5, 6) halfRng 0 (by norm_num)]
  show (uniform (0, 1) (halfRng 0), uniform (0, 1) (halfRng 1)) = (1 / 2, 1 / 2)
  norm_num [uniform, halfRng]

/-! ## The claims -/

/-- C6: within a single call to `step_all_particles` every particle's
velocity update reads the same global best position — the value held
before the sweep began: the call coincides with the two-phase snapshot
formulation `step_two_phase`, and the sweep itself never writes the
global-best fields, which are written at most once, by the final commit
after every particle's position, velocity and personal-best update has
completed. -/
theorem C6_sweep_snapshot (s : ParticleSwarm) (rng : ℕ → ℚ) :
    s.step_all_particles rng = step_two_phase s rng
    ∧ (sweepLoop s rng).global_best_z_value = s.global_best_z_value
    ∧ (sweepLoop s rng).global_best_position = s.global_best_position :=
  ⟨step_eq_two_phase s rng, (sweepLoop_fields s rng).2.2.2.2.1,
    (sweepLoop_fields s rng).2.2.2.2.2⟩

/-- C8: `search 0` performs no step and returns exactly the
post-initialization pair (global best value, global best position),
leaving the swarm state unchanged; in general `search n` runs
`step_all_particles` exactly `n` times in sequence and then returns the
global best value and position of the final state. -/
theorem C8_search (s : ParticleSwarm) (rng : ℕ → ℚ) (n : ℕ) :
    s.search rng 0 = .ok (s.global_best_z_value, s.global_best_position)
    ∧ searchSteps 0 s rng = .ok s
    ∧ searchSteps (n + 1) s rng
        = (s.step_all_particles rng).bind
            (fun s' => searchSteps n s' (rngDrop rng (4 * s.particles.length)))
    ∧ s.search rng n
        = (searchSteps n s rng).map
            (fun s' => (s'.global_best_z_value, s'.global_best_position)) :=
  ⟨search_zero s rng, searchSteps_zero s rng, searchSteps_succ s rng n,
    search_eq s rng n⟩

/-- C5: the global best value never increases: after any successful
`step_all_particles` it is at most its previous value, and along any run
the successive global best values form a non-increasing chain. -/
theorem C5_monotone (s s' : ParticleSwarm) (rng : ℕ → ℚ)
    (h : s.step_all_particles rng = .ok s')
    (s2 : ParticleSwarm) (rs : List (ℕ → ℚ)) (states : List ParticleSwarm)
    (hrun : runStates s2 rs = .ok states) :
    s'.global_best_z_value ≤ s.global_best_z_value
    ∧ List.Chain' (fun a b => b.global_best_z_value ≤ a.global_best_z_value) states :=
  ⟨(step_ok_inversion s s' rng h).2.2.2.2.2, runStates_gbz_chain rs s2 states hrun⟩

/-- C5 witness: a concrete one-particle swarm, one concrete step and the
corresponding two-state run. -/
theorem C5_monotone_witness :
    zeroSwarm.step_all_particles zeroRng = .ok zeroSwarm
    ∧ runStates zeroSwarm [zeroRng] = .ok [zeroSwarm, zeroSwarm]
    ∧ (zeroSwarm.global_best_z_value ≤ zeroSwarm.global_best_z_value
        ∧ List.Chain' (fun a b => b.global_best_z_value ≤ a.global_best_z_value)
            [zeroSwarm, zeroSwarm]) :=
  ⟨zeroSwarm_step, zeroSwarm_run,
    C5_monotone zeroSwarm zeroSwarm zeroRng zeroSwarm_step zeroSwarm [zeroRng]
      [zeroSwarm, zeroSwarm] zeroSwarm_run⟩

/-- C3 counterexample: constructing a swarm with population size 0 (less
than 1) and inverted, degenerate bounds and then initializing it raises
nothing at all: `init_swarm` returns normally, with the swarm unchanged.
pso.py performs no validation and contains no ConfigurationError. -/
theorem C3_counterexample :
    (ParticleSwarm.new 0 zeroCost (1, 0) (1, 0)).init_swarm zeroRng
      = ParticleSwarm.new 0 zeroCost (1, 0) (1, 0) := rfl

/-- C3 amended: initialization performs no validation and cannot fail:
for `n < 1` `init_swarm` returns the swarm unchanged (no particles, the
global best still infinite), and for arbitrary bounds — inverted or
degenerate included — it returns normally having created `max n 0`
particles. -/
theorem C3_no_validation (n : ℤ) (f : ℚ → ℚ → ℚ) (xb yb : ℚ × ℚ) (rng : ℕ → ℚ) :
    (n < 1 → (ParticleSwarm.new n f xb yb).init_swarm rng = ParticleSwarm.new n f xb yb)
    ∧ ((ParticleSwarm.new n f xb yb).init_swarm rng).particles.length = n.toNat := by
  constructor
  · intro hn
    unfold ParticleSwarm.init_swarm
    have h0 : (ParticleSwarm.new n f xb yb).n_particles.toNat = 0 :=
      Int.toNat_of_nonpos (show n ≤ 0 by omega)
    rw [h0]
    rfl
  · exact init_swarm_length n f xb yb rng

/-- C3 witness: population 0 and inverted bounds. -/
theorem C3_no_validation_witness :
    ((0 : ℤ) < 1)
    ∧ ((ParticleSwarm.new 0 zeroCost (1, 0) (1, 0)).init_swarm zeroRng
        = ParticleSwarm.new 0 zeroCost (1, 0) (1, 0))
    ∧ ((ParticleSwarm.new 0 zeroCost (1, 0) (1, 0)).init_swarm zeroRng).particles.length
        = (0 : ℤ).toNat :=
  ⟨by norm_num,
    (C3_no_validation 0 zeroCost (1, 0) (1, 0) zeroRng).1 (by norm_num),
    (C3_no_validation 0 zeroCost (1, 0) (1, 0) zeroRng).2⟩

/-- C4 counterexample: on a swarm that was never initialized, `search 0`
does not fail at all — it returns the infinite initial global best — and
`step_all_particles` fails with the IndexError of `sorted([])[0]`, not
with a NotInitializedError (no such class exists in pso.py). -/
theorem C4_counterexample :
    emptySwarm.search zeroRng 0 = .ok (⊤, (⊤, ⊤))
    ∧ emptySwarm.step_all_particles zeroRng = .error .indexError :=
  ⟨rfl, step_all_nil emptySwarm zeroRng rfl⟩

/-- C4 amended: `step_all_particles` on an uninitialized swarm (empty
particle list) fails, but with the IndexError of `sorted([])[0]`, and
`search` with at least one iteration propagates that same IndexError;
`search 0` on an uninitialized swarm does not fail at all and returns
the initial infinite global best.  No NotInitializedError exists in the
code. -/
theorem C4_uninitialized (s : ParticleSwarm) (rng : ℕ → ℚ) (n : ℕ)
    (h : s.particles = []) :
    s.step_all_particles rng = .error .indexError
    ∧ s.search rng (n + 1) = .error .indexError
    ∧ s.search rng 0 = .ok (s.global_best_z_value, s.global_best_position) := by
  refine ⟨step_all_nil s rng h, ?_, search_zero s rng⟩
  rw [search_eq, searchSteps_succ, step_all_nil s rng h]
  rfl

/-- C4 witness: the uninitialized three-particle swarm. -/
theorem C4_uninitialized_witness :
    emptySwarm.particles = []
    ∧ (emptySwarm.step_all_particles zeroRng = .error .indexError
        ∧ emptySwarm.search zeroRng 1 = .error .indexError
        ∧ emptySwarm.search zeroRng 0
            = .ok (emptySwarm.global_best_z_value, emptySwarm.global_best_position)) :=
  ⟨rfl, C4_uninitialized emptySwarm zeroRng 0 rfl⟩

/-- C1 counterexample: `cexSwarm` is configured with `y_bounds = (2, 3)`
and initialized from the legitimate unit draw `u = 1/2`, yet immediately
after `init_swarm` its particle's y-coordinate is `1/2`, below the lower
y-bound: the claimed invariant fails right after initialization when the
two bounds differ (initialization draws both coordinates from
`x_bounds`). -/
theorem C1_counterexample :
    cexSwarm.y_bounds = (2, 3)
    ∧ (nthParticle cexSwarm 0).position.2 = 1 / 2
    ∧ ¬ (cexSwarm.y_bounds.1 ≤ (nthParticle cexSwarm 0).position.2
          ∧ (nthParticle cexSwarm 0).position.2 ≤ cexSwarm.y_bounds.2) := by
  have hyb : cexSwarm.y_bounds = (2, 3) := (init_swarm_fields _ halfRng).2.2.1
  have hpos := cexSwarm_pos
  refine ⟨hyb, ?_, ?_⟩
  · rw [hpos]
  · rw [hyb, hpos]
    norm_num

/-- C1 amended: every particle of every state reached by successful
`step_all_particles` calls from an initialized swarm has its position
within the configured bounds in both dimensions, and immediately after
`init_swarm` both coordinates lie within the x-dimension bounds (not
necessarily within `y_bounds`); the claim as stated holds whenever
`y_bounds = x_bounds`. -/
theorem C1_boundedness (n : ℤ) (f : ℚ → ℚ → ℚ) (xb yb : ℚ × ℚ)
    (r0 : ℕ → ℚ) (rs : List (ℕ → ℚ)) (states : List ParticleSwarm)
    (hxb : xb.1 ≤ xb.2) (hyb : yb.1 ≤ yb.2)
    (hr0 : ∀ k, 0 ≤ r0 k ∧ r0 k ≤ 1)
    (hrun : runStates ((ParticleSwarm.new n f xb yb).init_swarm r0) rs = .ok states) :
    (∀ p ∈ ((ParticleSwarm.new n f xb yb).init_swarm r0).particles,
        (xb.1 ≤ p.position.1 ∧ p.position.1 ≤ xb.2)
        ∧ (xb.1 ≤ p.position.2 ∧ p.position.2 ≤ xb.2))
    ∧ (∀ t ∈ states, t = (ParticleSwarm.new n f xb yb).init_swarm r0
        ∨ ∀ p ∈ t.particles,
            (xb.1 ≤ p.position.1 ∧ p.position.1 ≤ xb.2)
            ∧ (yb.1 ≤ p.position.2 ∧ p.position.2 ≤ yb.2))
    ∧ (yb = xb → ∀ t ∈ states, ∀ p ∈ t.particles,
        (xb.1 ≤ p.position.1 ∧ p.position.1 ≤ xb.2)
        ∧ (yb.1 ≤ p.position.2 ∧ p.position.2 ≤ yb.2)) := by
  have hinit := init_swarm_coord_bounds n f xb yb r0 hxb hr0
  have hfld := init_swarm_fields (ParticleSwarm.new n f xb yb) r0
  have hrb := runStates_bounds rs ((ParticleSwarm.new n f xb yb).init_swarm r0) states
    hrun (by rw [hfld.2.1]; exact hxb) (by rw [hfld.2.2.1]; exact hyb)
  refine ⟨?_, ?_, ?_⟩
  · intro p hp
    obtain ⟨h1, h2, _, _⟩ := hinit p hp
    exact ⟨h1, h2⟩
  · intro t ht
    rcases hrb t ht with rfl | hbt
    · exact Or.inl rfl
    · right
      intro p hp
      have hb := hbt p hp
      rw [hfld.2.1, hfld.2.2.1] at hb
      exact hb
  · intro hyx t ht
    rcases hrb t ht with rfl | hbt
    · intro p hp
      obtain ⟨h1, h2, _, _⟩ := hinit p hp
      refine ⟨h1, ?_⟩
      rw [hyx]
      exact h2
    · intro p hp
      have hb := hbt p hp
      rw [hfld.2.1, hfld.2.2.1] at hb
      exact hb

/-- C1 witness: the concrete zero swarm and its one-step run. -/
theorem C1_boundedness_witness :
    runStates ((ParticleSwarm.new 1 zeroCost (0, 0) (0, 0)).init_swarm zeroRng) [zeroRng]
        = .ok [zeroSwarm, zeroSwarm]
    ∧ ((∀ p ∈ ((ParticleSwarm.new 1 zeroCost (0, 0) (0, 0)).init_swarm zeroRng).particles,
          (((0 : ℚ), (0 : ℚ)).1 ≤ p.position.1 ∧ p.position.1 ≤ ((0 : ℚ), (0 : ℚ)).2)
          ∧ (((0 : ℚ), (0 : ℚ)).1 ≤ p.position.2 ∧ p.position.2 ≤ ((0 : ℚ), (0 : ℚ)).2))
        ∧ (∀ t ∈ [zeroSwarm, zeroSwarm],
            t = (ParticleSwarm.new 1 zeroCost (0, 0) (0, 0)).init_swarm zeroRng
            ∨ ∀ p ∈ t.particles,
                (((0 : ℚ), (0 : ℚ)).1 ≤ p.position.1 ∧ p.position.1 ≤ ((0 : ℚ), (0 : ℚ)).2)
                ∧ (((0 : ℚ), (0 : ℚ)).1 ≤ p.position.2 ∧ p.position.2 ≤ ((0 : ℚ), (0 : ℚ)).2))
        ∧ (((0 : ℚ), (0 : ℚ)) = ((0 : ℚ), (0 : ℚ)) → ∀ t ∈ [zeroSwarm, zeroSwarm],
            ∀ p ∈ t.particles,
              (((0 : ℚ), (0 : ℚ)).1 ≤ p.position.1 ∧ p.position.1 ≤ ((0 : ℚ), (0 : ℚ)).2)
              ∧ (((0 : ℚ), (0 : ℚ)).1 ≤ p.position.2 ∧ p.position.2 ≤ ((0 : ℚ), (0 : ℚ)).2))) :=
  ⟨zeroSwarm_run,
    C1_boundedness 1 zeroCost (0, 0) (0, 0) zeroRng [zeroRng] [zeroSwarm, zeroSwarm]
      le_rfl le_rfl (fun _ => ⟨le_rfl, by norm_num [zeroRng]⟩) zeroSwarm_run⟩

lemma runStates_start_mem (s : ParticleSwarm) (rs : List (ℕ → ℚ))
    (states : List ParticleSwarm) (h : runStates s rs = .ok states) :
    s ∈ states := by
  have hh := runStates_head s rs states h
  cases states with
  | nil => exact Option.noConfusion hh
  | cons a l =>
    simp only [List.head?_cons, Option.some.injEq] at hh
    rw [hh]
    exact List.mem_cons_self s l

/-- C10: during initialization both coordinates of every particle's
position, and both components of its velocity, are drawn uniformly from
the x-dimension bounds; `y_bounds` is never consulted — initializing
with a different `y_bounds` yields the identical state except for the
stored `y_bounds` field — and consequently an initial y-coordinate can
lie outside `y_bounds` whenever the two bounds differ (`c10Swarm`). -/
theorem C10_init_draws (n : ℤ) (f : ℚ → ℚ → ℚ) (xb yb yb' : ℚ × ℚ)
    (rng : ℕ → ℚ) (i : ℕ) (hi : i < n.toNat) :
    (ParticleSwarm.new n f xb yb').init_swarm rng
        = { (ParticleSwarm.new n f xb yb).init_swarm rng with y_bounds := yb' }
    ∧ (nthParticle ((ParticleSwarm.new n f xb yb).init_swarm rng) i).position
        = (uniform xb (rng (4 * i)), uniform xb (rng (4 * i + 1)))
    ∧ (nthParticle ((ParticleSwarm.new n f xb yb).init_swarm rng) i).velocity
        = (uniform xb (rng (4 * i + 2)), uniform xb (rng (4 * i + 3)))
    ∧ ¬ (c10Swarm.y_bounds.1 ≤ (nthParticle c10Swarm 0).position.2
          ∧ (nthParticle c10Swarm 0).position.2 ≤ c10Swarm.y_bounds.2) := by
  refine ⟨init_swarm_yb n f xb yb yb' rng, ?_, ?_, ?_⟩
  · rw [init_nth n f xb yb rng i hi]
    rfl
  · rw [init_nth n f xb yb rng i hi]
    rfl
  · have hyb : c10Swarm.y_bounds = (5, 6) := (init_swarm_fields _ halfRng).2.2.1
    rw [hyb, c10Swarm_pos]
    norm_num

/-- C10 witness: one particle, `x_bounds = (0, 1)`, `y_bounds = (2, 3)`
replaced by `(9, 10)`, the constant draw `1/2`. -/
theorem C10_init_draws_witness :
    (0 < (1 : ℤ).toNat)
    ∧ ((ParticleSwarm.new 1 zeroCost (0, 1) (9, 10)).init_swarm halfRng
        = { (ParticleSwarm.new 1 zeroCost (0, 1) (2, 3)).init_swarm halfRng with
              y_bounds := (9, 10) }
      ∧ (nthParticle ((ParticleSwarm.new 1 zeroCost (0, 1) (2, 3)).init_swarm halfRng) 0).position
          = (uniform (0, 1) (halfRng 0), uniform (0, 1) (halfRng 1))
      ∧ (nthParticle ((ParticleSwarm.new 1 zeroCost (0, 1) (2, 3)).init_swarm halfRng) 0).velocity
          = (uniform (0, 1) (halfRng 2), uniform (0, 1) (halfRng 3))
      ∧ ¬ (c10Swarm.y_bounds.1 ≤ (nthParticle c10Swarm 0).position.2
            ∧ (nthParticle c10Swarm 0).position.2 ≤ c10Swarm.y_bounds.2)) :=
  ⟨by norm_num, C10_init_draws 1 zeroCost (0, 1) (2, 3) (9, 10) halfRng 0 (by norm_num)⟩

/-- C2: immediately after initialization the global best value equals
the minimum of the personal bests over the whole population; the
equality holds again at every state reached by successful steps, and at
the end of any run the global best value also equals the minimum cost
observed at any evaluated particle position over the whole run. -/
theorem C2_global_best_sound (n : ℤ) (f : ℚ → ℚ → ℚ) (xb yb : ℚ × ℚ)
    (r0 : ℕ → ℚ) (rs : List (ℕ → ℚ)) (states : List ParticleSwarm)
    (hrun : runStates ((ParticleSwarm.new n f xb yb).init_swarm r0) rs = .ok states)
    (hne : states ≠ []) :
    ((ParticleSwarm.new n f xb yb).init_swarm r0).global_best_z_value
        = minPersonalBest ((ParticleSwarm.new n f xb yb).init_swarm r0)
    ∧ (∀ t ∈ states, t.global_best_z_value = minPersonalBest t)
    ∧ (states.getLast hne).global_best_z_value = (allEvalCosts states).minimum := by
  have hinv := init_swarm_gbz n f xb yb r0
  refine ⟨hinv, runStates_gbz_minPB rs _ states hrun hinv, ?_⟩
  apply runStates_gbz_allEval rs _ states hrun hinv
  intro i hi
  have hi' : i < n.toNat := by
    rw [← init_swarm_length n f xb yb r0]
    exact hi
  exact (init_sound n f xb yb r0 i hi').1

/-- C2 witness: the concrete zero swarm and its one-step run. -/
theorem C2_global_best_sound_witness :
    runStates ((ParticleSwarm.new 1 zeroCost (0, 0) (0, 0)).init_swarm zeroRng) [zeroRng]
        = .ok [zeroSwarm, zeroSwarm]
    ∧ (((ParticleSwarm.new 1 zeroCost (0, 0) (0, 0)).init_swarm zeroRng).global_best_z_value
          = minPersonalBest ((ParticleSwarm.new 1 zeroCost (0, 0) (0, 0)).init_swarm zeroRng)
        ∧ (∀ t ∈ [zeroSwarm, zeroSwarm], t.global_best_z_value = minPersonalBest t)
        ∧ ([zeroSwarm, zeroSwarm].getLast (by simp)).global_best_z_value
            = (allEvalCosts [zeroSwarm, zeroSwarm]).minimum) :=
  ⟨zeroSwarm_run,
    C2_global_best_sound 1 zeroCost (0, 0) (0, 0) zeroRng [zeroRng]
      [zeroSwarm, zeroSwarm] zeroSwarm_run (by simp)⟩

/-- C7: at every state of any run from an initialized swarm, every
particle's `best_z_value` equals the cost function evaluated at its
`best_position`; at the end of the run it equals the minimum cost
observed at that particle's evaluated positions across the whole run,
and it never increases along the run. -/
theorem C7_personal_best (n : ℤ) (f : ℚ → ℚ → ℚ) (xb yb : ℚ × ℚ)
    (r0 : ℕ → ℚ) (rs : List (ℕ → ℚ)) (states : List ParticleSwarm)
    (hrun : runStates ((ParticleSwarm.new n f xb yb).init_swarm r0) rs = .ok states)
    (i : ℕ) (hi : i < n.toNat) (hne : states ≠ []) :
    (∀ t ∈ states,
        (nthParticle t i).best_z_value
          = t.cost_function (nthParticle t i).best_position.1
              (nthParticle t i).best_position.2)
    ∧ ((nthParticle (states.getLast hne) i).best_z_value : WithTop ℚ)
        = (states.map (fun t => observedCost t i)).minimum
    ∧ List.Chain' (fun a b =>
        (nthParticle b i).best_z_value ≤ (nthParticle a i).best_z_value) states := by
  have hlen : i < ((ParticleSwarm.new n f xb yb).init_swarm r0).particles.length := by
    rw [init_swarm_length]
    exact hi
  obtain ⟨hobs, hsound0⟩ := init_sound n f xb yb r0 i hi
  refine ⟨runStates_sound rs _ states hrun i hlen hsound0, ?_,
    runStates_bz_chain rs _ states hrun i hlen⟩
  rw [runStates_bz_min rs _ states hrun i hlen (le_of_eq hobs) hne]
  apply min_eq_right
  rw [hobs]
  exact List.minimum_le_of_mem'
    (List.mem_map_of_mem _ (runStates_start_mem _ rs states hrun))

/-- C7 witness: the concrete zero swarm, particle 0, one-step run. -/
theorem C7_personal_best_witness :
    runStates ((ParticleSwarm.new 1 zeroCost (0, 0) (0, 0)).init_swarm zeroRng) [zeroRng]
        = .ok [zeroSwarm, zeroSwarm]
    ∧ ((∀ t ∈ [zeroSwarm, zeroSwarm],
          (nthParticle t 0).best_z_value
            = t.cost_function (nthParticle t 0).best_position.1
                (nthParticle t 0).best_position.2)
        ∧ ((nthParticle ([zeroSwarm, zeroSwarm].getLast (by simp)) 0).best_z_value : WithTop ℚ)
            = ([zeroSwarm, zeroSwarm].map (fun t => observedCost t 0)).minimum
        ∧ List.Chain' (fun a b =>
            (nthParticle b 0).best_z_value ≤ (nthParticle a 0).best_z_value)
            [zeroSwarm, zeroSwarm]) :=
  ⟨zeroSwarm_run,
    C7_personal_best 1 zeroCost (0, 0) (0, 0) zeroRng [zeroRng]
      [zeroSwarm, zeroSwarm] zeroSwarm_run 0 (by norm_num) (by simp)⟩

/-- C9: the Rastrigin cost function evaluates f(0.5, 1) at a = 10 to
exactly 85/4 = 21.25, within the spec's tolerance 0.01, and for any
input with x or y outside [-5.12, 5.12] it raises the domain assertion
error instead of returning a value. -/
theorem C9_rastrigin :
    rastrigin_2d (1 / 2) 1 10 = .ok ((85 : ℝ) / 4)
    ∧ |(85 : ℝ) / 4 - 21.25| < 0.01
    ∧ (∀ x y : ℚ, (x < -5.12 ∨ 5.12 < x ∨ y < -5.12 ∨ 5.12 < y) →
        rastrigin_2d x y 10 = .error .assertionError) := by
  refine ⟨?_, by norm_num, ?_⟩
  · unfold rastrigin_2d
    rw [if_pos (by norm_num)]
    congr 1
    have h1 : 2 * Real.pi * (((1 : ℚ) / 2 : ℚ) : ℝ) = Real.pi := by
      push_cast
      ring
    have h2 : 2 * Real.pi * (((1 : ℚ) : ℚ) : ℝ) = 2 * Real.pi := by
      push_cast
      ring
    rw [h1, h2, Real.cos_pi, Real.cos_two_pi]
    push_cast
    ring
  · intro x y hxy
    unfold rastrigin_2d
    rw [if_neg]
    intro hcond
    obtain ⟨⟨hx1, hx2⟩, hy1, hy2⟩ := hcond
    rcases hxy with h | h | h | h
    exacts [absurd hx1 (not_le.mpr h), absurd hx2 (not_le.mpr h),
      absurd hy1 (not_le.mpr h), absurd hy2 (not_le.mpr h)]

/-- C9 witness: the out-of-domain input (-5.13, 0). -/
theorem C9_rastrigin_witness :
    ((-513 : ℚ) / 100 < -5.12)
    ∧ rastrigin_2d (-513 / 100) 0 10 = .error .assertionError :=
  ⟨by norm_num, C9_rastrigin.2.2 (-513 / 100) 0 (Or.inl (by norm_num))⟩
